import Mathlib

/-!
Shallow embedding of the dw-swipeable widget gesture logic from
src/dw-swipeable.js.  Pixel quantities and times are modelled as rationals.
JS division corner cases (division by zero producing Infinity or NaN) are
embedded by explicit guards; each such guard is noted where it occurs.
The per-frame animation callbacks of the swipe and reset methods are
modelled as fuelled recursive loops that record the offsets applied by the
transform method, the dispatched directions, and the final stored offset
(none encodes the cleared undefined state).
-/

/-- Swipe direction, the string values LEFT and RIGHT in the source. -/
inductive SwipeDir where
  | LEFT : SwipeDir
  | RIGHT : SwipeDir
deriving DecidableEq, Repr

/-- Configured action for one side: name, caption and an optional icon. -/
structure ActionSpec where
  name : String
  caption : String
  icon : Option String
deriving DecidableEq, Repr

/-- Clamp performed by the transform method on the requested offset:
position < 0 gives max(position, -offsetWidth), otherwise
min(position, offsetWidth). -/
def clampTranslateX (w position : ℚ) : ℚ :=
  if position < 0 then max position (-w) else min position w

/-- Values stored by the transform method from a requested offset. -/
structure TransformState where
  translateX : ℚ
  scaleX : ℚ
  placeholderTextScaleX : ℚ
deriving DecidableEq, Repr

/-- Transform computation: clamp the offset, then derive
scaleX = max(1, abs(translateX / 100)) and
placeholderTextScaleX = min(1, 100 / abs(translateX)).  When translateX is 0
the JS quotient 100 / 0 is Infinity and min(1, Infinity) = 1; the zero guard
embeds exactly that value. -/
def transformState (w position : ℚ) : TransformState :=
  { translateX := clampTranslateX w position
    scaleX := max 1 (abs (clampTranslateX w position / 100))
    placeholderTextScaleX :=
      if clampTranslateX w position = 0 then 1
      else min 1 (100 / abs (clampTranslateX w position)) }

/-- Inline style strings written by the transform method.  The placeholder
strings reproduce the source template literals verbatim, including the fact
that the template for the placeholders does not close the parenthesis after
the scaleX value. -/
structure TransformOutput where
  contentTransform : String
  leftPlaceholderTransform : Option String
  leftPlaceholderContentTransform : Option String
  rightPlaceholderTransform : Option String
  rightPlaceholderContentTransform : Option String
deriving DecidableEq, Repr

/-- Style assignments performed by the transform method: the content always
receives its transform; each side's placeholder elements are assigned only
when that side's action is configured. -/
def transformApply (leftPresent rightPresent : Bool) (w position : ℚ) : TransformOutput :=
  let s := transformState w position
  { contentTransform := "translateX(" ++ toString s.translateX ++ "px)"
    leftPlaceholderTransform :=
      if leftPresent then
        some ("translateX(" ++ toString s.translateX ++ "px) scaleX(" ++ toString s.scaleX)
      else none
    leftPlaceholderContentTransform :=
      if leftPresent then
        some ("scaleX(" ++ toString s.placeholderTextScaleX ++ ")")
      else none
    rightPlaceholderTransform :=
      if rightPresent then
        some ("translateX(" ++ toString s.translateX ++ "px) scaleX(" ++ toString s.scaleX)
      else none
    rightPlaceholderContentTransform :=
      if rightPresent then
        some ("scaleX(" ++ toString s.placeholderTextScaleX ++ ")")
      else none }

/-- Check that a style string closes every parenthesis it opens. -/
def parenBalanced (s : String) : Bool :=
  s.toList.count '(' == s.toList.count ')'

/-- Touch-move handler: when no transform is in progress (stored offset is
none) the move is ignored unless the motion is at least as horizontal as
vertical, the vertical motion is within the widget height, and the
horizontal motion is beyond the threshold; otherwise the transform is
applied with diffX and the clamped offset is stored.  The JS test
abs(diffX) / abs(diffY) < 1 is false when diffY = 0 (the quotient is
Infinity for diffX nonzero and NaN for diffX zero, neither below 1), which
the diffY nonzero conjunct embeds. -/
def onTouchMove (threshold h w : ℚ) (tx : Option ℚ) (diffX diffY : ℚ) : Option ℚ :=
  if tx = none ∧
      ((diffY ≠ 0 ∧ abs diffX < abs diffY) ∨ h < abs diffY ∨ abs diffX ≤ threshold) then
    tx
  else
    some (transformState w diffX).translateX

/-- Outcome of the touch-end handler. -/
inductive EndOutcome where
  | noop : EndOutcome
  | commit : EndOutcome
  | reset : EndOutcome
deriving DecidableEq, Repr

/-- Commit test of the touch-end handler: the velocity abs(diffX) / timeDiff
exceeds the configured velocity, or abs(diffX) exceeds half the widget
width.  When timeDiff = 0 the JS velocity is Infinity (diffX nonzero, so any
finite configured velocity is exceeded) or NaN (diffX zero, so the
comparison is false); the zero guard embeds that behaviour. -/
def commitCondition (v w diffX timeDiff : ℚ) : Bool :=
  (if timeDiff = 0 then decide (diffX ≠ 0) else decide (v < abs diffX / timeDiff))
    || decide (w / 2 < abs diffX)

/-- Decision taken by the touch-end handler: no-op when no transform is in
progress, otherwise commit or reset by the commit test. -/
def touchEndDecision (v w : ℚ) (tx : Option ℚ) (diffX timeDiff : ℚ) : EndOutcome :=
  match tx with
  | none => EndOutcome.noop
  | some _ =>
    if commitCondition v w diffX timeDiff then EndOutcome.commit else EndOutcome.reset

/-- Direction computed at the start of both animation methods:
LEFT when the stored offset is negative, RIGHT otherwise. -/
def swipeDirection (tx : ℚ) : SwipeDir :=
  if tx < 0 then SwipeDir.LEFT else SwipeDir.RIGHT

/-- Per-frame target of the swipe (commit) animation: step by pixelPerFrame
toward the signed widget width, clamped at the target. -/
def swipeStep (w ppf : ℚ) (dir : SwipeDir) (tx : ℚ) : ℚ :=
  match dir with
  | SwipeDir.LEFT => max (tx - ppf) (-w)
  | SwipeDir.RIGHT => min (tx + ppf) w

/-- Per-frame target of the reset animation: step by pixelPerFrame toward 0,
clamped at 0. -/
def resetStep (ppf : ℚ) (dir : SwipeDir) (tx : ℚ) : ℚ :=
  match dir with
  | SwipeDir.LEFT => min (tx + ppf) 0
  | SwipeDir.RIGHT => max (tx - ppf) 0

/-- Prepend one applied offset to a run record. -/
def runCons (x : ℚ) (r : List ℚ × List SwipeDir × Option ℚ) :
    List ℚ × List SwipeDir × Option ℚ :=
  (x :: r.1, r.2)

/-- Fuelled recursion of the swipe (commit) animation callback.  Each frame:
when abs(offset) has reached the widget width, dispatch the direction and
clear the stored offset; otherwise apply the stepped offset through the
transform method and continue. -/
def swipeLoop (w ppf : ℚ) (dir : SwipeDir) : Nat → ℚ → List ℚ × List SwipeDir × Option ℚ
  | 0, tx => ([], [], some tx)
  | n + 1, tx =>
    if w ≤ abs tx then
      ([], [dir], none)
    else
      runCons (transformState w (swipeStep w ppf dir tx)).translateX
        (swipeLoop w ppf dir n (transformState w (swipeStep w ppf dir tx)).translateX)

/-- Fuelled recursion of the reset animation callback.  Each frame: when the
offset has reached or crossed 0 (direction-aware), clear the stored offset
without dispatching; otherwise apply the stepped offset through the
transform method and continue. -/
def resetLoop (w ppf : ℚ) (dir : SwipeDir) : Nat → ℚ → List ℚ × List SwipeDir × Option ℚ
  | 0, tx => ([], [], some tx)
  | n + 1, tx =>
    if (dir = SwipeDir.LEFT ∧ 0 ≤ tx) ∨ (dir = SwipeDir.RIGHT ∧ tx ≤ 0) then
      ([], [], none)
    else
      runCons (transformState w (resetStep ppf dir tx)).translateX
        (resetLoop w ppf dir n (transformState w (resetStep ppf dir tx)).translateX)

/-- Swipe (commit) animation as started by the touch-end handler.  The
remaining distance and the per-frame step follow the source; the source
literal 0.06 is written 6 / 100. -/
def swipeSim (w t tx₀ : ℚ) (fuel : Nat) : List ℚ × List SwipeDir × Option ℚ :=
  swipeLoop w (abs ((if tx₀ < 0 then -w - tx₀ else w - tx₀) / (t * (6 / 100))))
    (swipeDirection tx₀) fuel tx₀

/-- Reset animation as started by the touch-end handler. -/
def resetSim (w t tx₀ : ℚ) (fuel : Nat) : List ℚ × List SwipeDir × Option ℚ :=
  resetLoop w (abs (tx₀ / (t * (6 / 100)))) (swipeDirection tx₀) fuel tx₀

/-- Complete touch-end behaviour: no-op without a stored offset, otherwise
run the swipe or the reset animation according to the commit test. -/
def touchEndRun (v w t : ℚ) (tx : Option ℚ) (diffX timeDiff : ℚ) (fuel : Nat) :
    List ℚ × List SwipeDir × Option ℚ :=
  match tx with
  | none => ([], [], none)
  | some tx₀ =>
    if commitCondition v w diffX timeDiff then swipeSim w t tx₀ fuel
    else resetSim w t tx₀ fuel

/-- Action dispatch: resolve the name from the configured action of the
direction; a missing action or an empty resolved name (both falsy in JS) is
a silent no-op, otherwise a single event with the resolved name is
emitted. -/
def dispatchAction (leftAction rightAction : Option ActionSpec) (dir : SwipeDir) :
    Option String :=
  match (match dir with
    | SwipeDir.LEFT => Option.map ActionSpec.name leftAction
    | SwipeDir.RIGHT => Option.map ActionSpec.name rightAction) with
  | none => none
  | some n => if n = "" then none else some n

/-- Widget instance state: configured actions, configuration numbers, layout
sizes and the stored offset. -/
structure Component where
  leftAction : Option ActionSpec
  rightAction : Option ActionSpec
  threshold : ℚ
  velocity : ℚ
  animationTime : ℚ
  offsetWidth : ℚ
  offsetHeight : ℚ
  translateX : Option ℚ
deriving DecidableEq, Repr

/-- Touch-move handler at the component level. -/
def componentTouchMove (c : Component) (diffX diffY : ℚ) : Component :=
  { c with translateX :=
      onTouchMove c.threshold c.offsetHeight c.offsetWidth c.translateX diffX diffY }

/-- Transform application at the component level: a side's placeholder
elements exist exactly when its action is configured. -/
def componentTransform (c : Component) (position : ℚ) : TransformOutput :=
  transformApply c.leftAction.isSome c.rightAction.isSome c.offsetWidth position

/-! Helper lemmas about the transform clamp. -/

lemma transformState_translateX (w p : ℚ) :
    (transformState w p).translateX = clampTranslateX w p := rfl

lemma clampTranslateX_of_mem (w p : ℚ) (h1 : -w ≤ p) (h2 : p ≤ w) :
    clampTranslateX w p = p := by
  unfold clampTranslateX
  by_cases hp : p < 0
  · rw [if_pos hp]
    exact max_eq_left h1
  · rw [if_neg hp]
    exact min_eq_left h2

lemma clampTranslateX_lower (w p : ℚ) (hw : 0 ≤ w) : -w ≤ clampTranslateX w p := by
  unfold clampTranslateX
  by_cases hp : p < 0
  · rw [if_pos hp]
    exact le_max_right _ _
  · rw [if_neg hp]
    push_neg at hp
    exact le_min (by linarith) (by linarith)

lemma clampTranslateX_upper (w p : ℚ) (hw : 0 ≤ w) : clampTranslateX w p ≤ w := by
  unfold clampTranslateX
  by_cases hp : p < 0
  · rw [if_pos hp]
    exact max_le (by linarith) (by linarith)
  · rw [if_neg hp]
    exact min_le_right _ _

/-- Claim C3: after every call to the Transform Applier with any signed
offset, the stored translateX lies in the interval from -contentWidth to
+contentWidth, the derived scaleX is at least 1, the derived
placeholderTextScaleX lies between 0 and 1, and for offset 0 the
placeholderTextScaleX is exactly 1 (the JS division 100 / 0 is absorbed by
the min with 1, so no non-finite value reaches the derived scales). -/
theorem transform_invariants (w p : ℚ) (hw : 0 ≤ w) :
    -w ≤ (transformState w p).translateX ∧
    (transformState w p).translateX ≤ w ∧
    1 ≤ (transformState w p).scaleX ∧
    0 ≤ (transformState w p).placeholderTextScaleX ∧
    (transformState w p).placeholderTextScaleX ≤ 1 ∧
    (p = 0 → (transformState w p).placeholderTextScaleX = 1) := by
  refine ⟨clampTranslateX_lower w p hw, clampTranslateX_upper w p hw, le_max_left _ _, ?_, ?_, ?_⟩
  · unfold transformState
    by_cases hz : clampTranslateX w p = 0
    · rw [if_pos hz]
      norm_num
    · rw [if_neg hz]
      exact le_min (by norm_num) (div_nonneg (by norm_num) (abs_nonneg _))
  · unfold transformState
    by_cases hz : clampTranslateX w p = 0
    · rw [if_pos hz]
    · rw [if_neg hz]
      exact min_le_left _ _
  · intro hp
    subst hp
    have h0 : clampTranslateX w 0 = 0 := clampTranslateX_of_mem w 0 (by linarith) hw
    unfold transformState
    rw [if_pos h0]

/-- Witness for the transform invariants at width 300 and offset 0. -/
theorem transform_invariants_witness :
    (0 : ℚ) ≤ 300 ∧
    (-(300:ℚ) ≤ (transformState 300 0).translateX ∧
      (transformState 300 0).translateX ≤ 300 ∧
      1 ≤ (transformState 300 0).scaleX ∧
      0 ≤ (transformState 300 0).placeholderTextScaleX ∧
      (transformState 300 0).placeholderTextScaleX ≤ 1 ∧
      ((0:ℚ) = 0 → (transformState 300 0).placeholderTextScaleX = 1)) :=
  ⟨by norm_num, transform_invariants 300 0 (by norm_num)⟩

/-- Claim C2: while no transform is in progress, a touch-move begins a
transform exactly when the motion is at least as horizontal as vertical
(zero vertical motion counting as horizontal), the vertical motion does not
exceed the widget height, and the horizontal motion strictly exceeds the
threshold; once a transform is in progress every touch-move applies diffX
through the Transform Applier with no further gating. -/
theorem touchMove_gate (threshold h w diffX diffY : ℚ) :
    (onTouchMove threshold h w none diffX diffY =
      if (diffY = 0 ∨ abs diffY ≤ abs diffX) ∧ abs diffY ≤ h ∧ threshold < abs diffX then
        some (transformState w diffX).translateX
      else none) ∧
    (∀ tx₀ : ℚ, onTouchMove threshold h w (some tx₀) diffX diffY =
      some (transformState w diffX).translateX) := by
  constructor
  · have hg : ¬((diffY ≠ 0 ∧ abs diffX < abs diffY) ∨ h < abs diffY ∨ abs diffX ≤ threshold) ↔
        ((diffY = 0 ∨ abs diffY ≤ abs diffX) ∧ abs diffY ≤ h ∧ threshold < abs diffX) := by
      push_neg
      constructor
      · rintro ⟨h1, h2, h3⟩
        refine ⟨?_, h2, h3⟩
        by_cases hz : diffY = 0
        · exact Or.inl hz
        · exact Or.inr (h1 hz)
      · rintro ⟨h1, h2, h3⟩
        exact ⟨fun hz => h1.resolve_left hz, h2, h3⟩
    by_cases hc : (diffY = 0 ∨ abs diffY ≤ abs diffX) ∧ abs diffY ≤ h ∧ threshold < abs diffX
    · rw [if_pos hc]
      unfold onTouchMove
      rw [if_neg]
      rintro ⟨-, hguard⟩
      exact (hg.mpr hc) hguard
    · rw [if_neg hc]
      unfold onTouchMove
      rw [if_pos]
      constructor
      · rfl
      · by_contra hguard
        exact hc (hg.mp hguard)
  · intro tx₀
    unfold onTouchMove
    rw [if_neg]
    rintro ⟨hnone, -⟩
    exact Option.noConfusion hnone

/-- Claim C1: on touch-end while a transform is in progress, the gesture
commits exactly when the velocity (displacement over elapsed time) strictly
exceeds the configured velocity or the displacement strictly exceeds half
the widget width, and resets otherwise; each disjunct alone forces a
commit. -/
theorem touchEnd_commit_rule (v w tx₀ diffX timeDiff : ℚ) (ht : 0 < timeDiff) :
    (touchEndDecision v w (some tx₀) diffX timeDiff = EndOutcome.commit ↔
      (v < abs diffX / timeDiff ∨ w / 2 < abs diffX)) ∧
    (touchEndDecision v w (some tx₀) diffX timeDiff = EndOutcome.reset ↔
      ¬(v < abs diffX / timeDiff ∨ w / 2 < abs diffX)) ∧
    (v < abs diffX / timeDiff →
      touchEndDecision v w (some tx₀) diffX timeDiff = EndOutcome.commit) ∧
    (w / 2 < abs diffX →
      touchEndDecision v w (some tx₀) diffX timeDiff = EndOutcome.commit) := by
  have hne : timeDiff ≠ 0 := ne_of_gt ht
  have hcc : commitCondition v w diffX timeDiff = true ↔
      (v < abs diffX / timeDiff ∨ w / 2 < abs diffX) := by
    simp [commitCondition, hne]
  by_cases hb : commitCondition v w diffX timeDiff = true
  · have hprop := hcc.mp hb
    refine ⟨?_, ?_, ?_, ?_⟩
    · simp [touchEndDecision, hb, hprop]
    · simp [touchEndDecision, hb, hprop]
    · intro hv
      simp [touchEndDecision, hb]
    · intro hd
      simp [touchEndDecision, hb]
  · have hprop : ¬(v < abs diffX / timeDiff ∨ w / 2 < abs diffX) := fun hp => hb (hcc.mpr hp)
    have hbf : commitCondition v w diffX timeDiff = false := by
      simpa using hb
    refine ⟨?_, ?_, ?_, ?_⟩
    · simp [touchEndDecision, hbf, hprop]
    · simp [touchEndDecision, hbf, hprop]
    · intro hv
      exact absurd (Or.inl hv) hprop
    · intro hd
      exact absurd (Or.inr hd) hprop

/-- Witness for the touch-end commit rule: the spec scenario with width 300,
velocity 3 / 10, a 150 px leftward drag over 100 ms. -/
theorem touchEnd_commit_rule_witness :
    (0 : ℚ) < 100 ∧
    ((touchEndDecision (3/10) 300 (some (-150)) (-150) 100 = EndOutcome.commit ↔
        ((3:ℚ)/10 < abs (-150 : ℚ) / 100 ∨ (300:ℚ) / 2 < abs (-150 : ℚ))) ∧
      (touchEndDecision (3/10) 300 (some (-150)) (-150) 100 = EndOutcome.reset ↔
        ¬((3:ℚ)/10 < abs (-150 : ℚ) / 100 ∨ (300:ℚ) / 2 < abs (-150 : ℚ))) ∧
      ((3:ℚ)/10 < abs (-150 : ℚ) / 100 →
        touchEndDecision (3/10) 300 (some (-150)) (-150) 100 = EndOutcome.commit) ∧
      ((300:ℚ) / 2 < abs (-150 : ℚ) →
        touchEndDecision (3/10) 300 (some (-150)) (-150) 100 = EndOutcome.commit)) :=
  ⟨by norm_num, touchEnd_commit_rule (3/10) 300 (-150) (-150) 100 (by norm_num)⟩

/-- Claim C9: a touch-end with no transform in progress is a complete no-op:
the decision is noop, no offset is applied, no action is dispatched, and the
stored offset stays cleared. -/
theorem touchEnd_no_gesture_noop (v w t diffX timeDiff : ℚ) (fuel : Nat) :
    touchEndDecision v w none diffX timeDiff = EndOutcome.noop ∧
    touchEndRun v w t none diffX timeDiff fuel = ([], [], none) :=
  ⟨rfl, rfl⟩

/-- Claim C6: dispatch resolves the name from the configured action of the
swipe direction; a missing action resolves nothing, an empty resolved name
emits nothing, and otherwise exactly the configured name is emitted. -/
theorem dispatchAction_rule (l r : Option ActionSpec) :
    (l = none → dispatchAction l r SwipeDir.LEFT = none) ∧
    (r = none → dispatchAction l r SwipeDir.RIGHT = none) ∧
    (∀ a : ActionSpec, l = some a →
      dispatchAction l r SwipeDir.LEFT = if a.name = "" then none else some a.name) ∧
    (∀ a : ActionSpec, r = some a →
      dispatchAction l r SwipeDir.RIGHT = if a.name = "" then none else some a.name) := by
  refine ⟨?_, ?_, ?_, ?_⟩
  · intro hl
    subst hl
    rfl
  · intro hr
    subst hr
    rfl
  · intro a hl
    subst hl
    simp [dispatchAction]
  · intro a hr
    subst hr
    simp [dispatchAction]

/-- Witness for the dispatch rule: a configured left DELETE action resolves
and emits the name DELETE. -/
theorem dispatchAction_rule_witness :
    dispatchAction (some (ActionSpec.mk "DELETE" "Delete" none)) none SwipeDir.LEFT =
      (if ("DELETE" : String) = "" then none else some "DELETE") :=
  (dispatchAction_rule (some (ActionSpec.mk "DELETE" "Delete" none)) none).2.2.1
    (ActionSpec.mk "DELETE" "Delete" none) rfl

/-! Unfolding and bookkeeping lemmas for the animation loops. -/

lemma swipeLoop_succ (w ppf : ℚ) (dir : SwipeDir) (n : Nat) (tx : ℚ) :
    swipeLoop w ppf dir (n + 1) tx =
      if w ≤ abs tx then ([], [dir], none)
      else
        runCons (transformState w (swipeStep w ppf dir tx)).translateX
          (swipeLoop w ppf dir n (transformState w (swipeStep w ppf dir tx)).translateX) := rfl

lemma resetLoop_succ (w ppf : ℚ) (dir : SwipeDir) (n : Nat) (tx : ℚ) :
    resetLoop w ppf dir (n + 1) tx =
      if (dir = SwipeDir.LEFT ∧ 0 ≤ tx) ∨ (dir = SwipeDir.RIGHT ∧ tx ≤ 0) then ([], [], none)
      else
        runCons (transformState w (resetStep ppf dir tx)).translateX
          (resetLoop w ppf dir n (transformState w (resetStep ppf dir tx)).translateX) := rfl

lemma swipeLoop_events (w ppf : ℚ) (dir : SwipeDir) :
    ∀ (n : Nat) (tx : ℚ),
      (swipeLoop w ppf dir n tx).2.1 = [] ∨ (swipeLoop w ppf dir n tx).2.1 = [dir] := by
  intro n
  induction n with
  | zero => intro tx; exact Or.inl rfl
  | succ n ih =>
    intro tx
    rw [swipeLoop_succ]
    by_cases hs : w ≤ abs tx
    · rw [if_pos hs]
      exact Or.inr rfl
    · rw [if_neg hs]
      exact ih _

lemma resetLoop_events (w ppf : ℚ) (dir : SwipeDir) :
    ∀ (n : Nat) (tx : ℚ), (resetLoop w ppf dir n tx).2.1 = [] := by
  intro n
  induction n with
  | zero => intro tx; rfl
  | succ n ih =>
    intro tx
    rw [resetLoop_succ]
    by_cases hs : (dir = SwipeDir.LEFT ∧ 0 ≤ tx) ∨ (dir = SwipeDir.RIGHT ∧ tx ≤ 0)
    · rw [if_pos hs]
    · rw [if_neg hs]
      exact ih _

lemma getLast?_cons_of (a v : ℚ) (l : List ℚ) (h : l.getLast? = some v) :
    (a :: l).getLast? = some v := by
  cases l with
  | nil => simp at h
  | cons b t =>
    rw [List.getLast?_cons_cons]
    exact h

/-! Termination of the swipe (commit) animation, by direction. -/

lemma swipeLoop_right_done (w ppf : ℚ) (hw : 0 ≤ w) (hp : 0 < ppf) :
    ∀ (k : Nat) (tx : ℚ), 0 ≤ tx → tx ≤ w → w - tx ≤ (k : ℚ) * ppf →
      (swipeLoop w ppf SwipeDir.RIGHT (k + 1) tx).2 = ([SwipeDir.RIGHT], none) ∧
      (∀ x ∈ (swipeLoop w ppf SwipeDir.RIGHT (k + 1) tx).1, 0 ≤ x ∧ x ≤ w) ∧
      List.Chain' (fun a b => a ≤ b) (tx :: (swipeLoop w ppf SwipeDir.RIGHT (k + 1) tx).1) := by
  intro k
  induction k with
  | zero =>
    intro tx h0 hle hk
    norm_num at hk
    have hs : w ≤ abs tx := by
      rw [abs_of_nonneg h0]
      linarith
    rw [swipeLoop_succ, if_pos hs]
    refine ⟨rfl, ?_, ?_⟩
    · intro x hx
      simp at hx
    · simp
  | succ k ih =>
    intro tx h0 hle hk
    by_cases hs : w ≤ abs tx
    · rw [swipeLoop_succ, if_pos hs]
      refine ⟨rfl, ?_, ?_⟩
      · intro x hx
        simp at hx
      · simp
    · have htxw : tx < w := by
        have := not_le.mp hs
        rwa [abs_of_nonneg h0] at this
      have h0' : 0 ≤ min (tx + ppf) w := le_min (by linarith) hw
      have hle' : min (tx + ppf) w ≤ w := min_le_right _ _
      have hclamp : (transformState w (swipeStep w ppf SwipeDir.RIGHT tx)).translateX
          = min (tx + ppf) w := by
        rw [transformState_translateX]
        show clampTranslateX w (min (tx + ppf) w) = min (tx + ppf) w
        exact clampTranslateX_of_mem w _ (by linarith) hle'
      have hrem : w - min (tx + ppf) w ≤ (k : ℚ) * ppf := by
        have hmul : ((k : ℚ) + 1) * ppf = (k : ℚ) * ppf + ppf := by ring
        have hnn : (0 : ℚ) ≤ (k : ℚ) * ppf := mul_nonneg (Nat.cast_nonneg k) hp.le
        rcases le_total (tx + ppf) w with hc | hc
        · rw [min_eq_left hc]
          push_cast at hk
          linarith
        · rw [min_eq_right hc]
          linarith
      obtain ⟨ih1, ih2, ih3⟩ := ih (min (tx + ppf) w) h0' hle' hrem
      rw [swipeLoop_succ, if_neg hs, hclamp]
      refine ⟨ih1, ?_, ?_⟩
      · intro x hx
        simp only [runCons, List.mem_cons] at hx
        rcases hx with hx | hx
        · subst hx
          exact ⟨h0', hle'⟩
        · exact ih2 x hx
      · simp only [runCons]
        rw [List.chain'_cons]
        exact ⟨le_min (by linarith) (by linarith), ih3⟩

lemma swipeLoop_left_done (w ppf : ℚ) (hw : 0 ≤ w) (hp : 0 < ppf) :
    ∀ (k : Nat) (tx : ℚ), tx ≤ 0 → -w ≤ tx → tx + w ≤ (k : ℚ) * ppf →
      (swipeLoop w ppf SwipeDir.LEFT (k + 1) tx).2 = ([SwipeDir.LEFT], none) ∧
      (∀ x ∈ (swipeLoop w ppf SwipeDir.LEFT (k + 1) tx).1, -w ≤ x ∧ x ≤ 0) ∧
      List.Chain' (fun a b => b ≤ a) (tx :: (swipeLoop w ppf SwipeDir.LEFT (k + 1) tx).1) := by
  intro k
  induction k with
  | zero =>
    intro tx h0 hle hk
    norm_num at hk
    have hs : w ≤ abs tx := by
      rw [abs_of_nonpos h0]
      linarith
    rw [swipeLoop_succ, if_pos hs]
    refine ⟨rfl, ?_, ?_⟩
    · intro x hx
      simp at hx
    · simp
  | succ k ih =>
    intro tx h0 hle hk
    by_cases hs : w ≤ abs tx
    · rw [swipeLoop_succ, if_pos hs]
      refine ⟨rfl, ?_, ?_⟩
      · intro x hx
        simp at hx
      · simp
    · have htxw : -w < tx := by
        have := not_le.mp hs
        rw [abs_of_nonpos h0] at this
        linarith
      have h0' : max (tx - ppf) (-w) ≤ 0 := max_le (by linarith) (by linarith)
      have hle' : -w ≤ max (tx - ppf) (-w) := le_max_right _ _
      have hclamp : (transformState w (swipeStep w ppf SwipeDir.LEFT tx)).translateX
          = max (tx - ppf) (-w) := by
        rw [transformState_translateX]
        show clampTranslateX w (max (tx - ppf) (-w)) = max (tx - ppf) (-w)
        exact clampTranslateX_of_mem w _ hle' (by linarith)
      have hrem : max (tx - ppf) (-w) + w ≤ (k : ℚ) * ppf := by
        have hnn : (0 : ℚ) ≤ (k : ℚ) * ppf := mul_nonneg (Nat.cast_nonneg k) hp.le
        have hmul : ((k : ℚ) + 1) * ppf = (k : ℚ) * ppf + ppf := by ring
        rcases le_total (tx - ppf) (-w) with hc | hc
        · rw [max_eq_right hc]
          linarith
        · rw [max_eq_left hc]
          push_cast at hk
          linarith
      obtain ⟨ih1, ih2, ih3⟩ := ih (max (tx - ppf) (-w)) h0' hle' hrem
      rw [swipeLoop_succ, if_neg hs, hclamp]
      refine ⟨ih1, ?_, ?_⟩
      · intro x hx
        simp only [runCons, List.mem_cons] at hx
        rcases hx with hx | hx
        · subst hx
          exact ⟨hle', h0'⟩
        · exact ih2 x hx
      · simp only [runCons]
        rw [List.chain'_cons]
        exact ⟨max_le (by linarith) (by linarith), ih3⟩

/-! Termination of the reset animation, by direction. -/

lemma resetLoop_stop_left (w ppf : ℚ) (n : Nat) :
    resetLoop w ppf SwipeDir.LEFT (n + 1) 0 = ([], [], none) := by
  rw [resetLoop_succ, if_pos (Or.inl ⟨rfl, le_refl 0⟩)]

lemma resetLoop_stop_right (w ppf : ℚ) (n : Nat) :
    resetLoop w ppf SwipeDir.RIGHT (n + 1) 0 = ([], [], none) := by
  rw [resetLoop_succ, if_pos (Or.inr ⟨rfl, le_refl 0⟩)]

lemma resetLoop_left_done (w ppf : ℚ) (hw : 0 ≤ w) (hp : 0 < ppf) :
    ∀ (k : Nat) (tx : ℚ), tx < 0 → -w ≤ tx → -tx ≤ (k : ℚ) * ppf →
      (resetLoop w ppf SwipeDir.LEFT (k + 1) tx).2 = ([], none) ∧
      (resetLoop w ppf SwipeDir.LEFT (k + 1) tx).1.getLast? = some 0 ∧
      (∀ x ∈ (resetLoop w ppf SwipeDir.LEFT (k + 1) tx).1, -w ≤ x ∧ x ≤ 0) ∧
      List.Chain' (fun a b => a ≤ b) (tx :: (resetLoop w ppf SwipeDir.LEFT (k + 1) tx).1) := by
  intro k
  induction k with
  | zero =>
    intro tx h0 hle hk
    norm_num at hk
    linarith
  | succ k ih =>
    intro tx h0 hle hk
    have hstop : ¬((SwipeDir.LEFT = SwipeDir.LEFT ∧ 0 ≤ tx) ∨
        (SwipeDir.LEFT = SwipeDir.RIGHT ∧ tx ≤ 0)) := by
      rintro (⟨-, hc⟩ | ⟨hc, -⟩)
      · linarith
      · exact SwipeDir.noConfusion hc
    have hle' : -w ≤ min (tx + ppf) 0 := le_min (by linarith) (by linarith)
    have h0' : min (tx + ppf) 0 ≤ 0 := min_le_right _ _
    have hclamp : (transformState w (resetStep ppf SwipeDir.LEFT tx)).translateX
        = min (tx + ppf) 0 := by
      rw [transformState_translateX]
      show clampTranslateX w (min (tx + ppf) 0) = min (tx + ppf) 0
      exact clampTranslateX_of_mem w _ hle' (by linarith)
    rw [resetLoop_succ, if_neg hstop, hclamp]
    rcases lt_or_le (tx + ppf) 0 with hc | hc
    · have hmin : min (tx + ppf) 0 = tx + ppf := min_eq_left hc.le
      have hrem : -(tx + ppf) ≤ (k : ℚ) * ppf := by
        have hmul : ((k : ℚ) + 1) * ppf = (k : ℚ) * ppf + ppf := by ring
        push_cast at hk
        linarith
      rw [hmin]
      obtain ⟨ih1, ih2, ih3, ih4⟩ := ih (tx + ppf) hc (by linarith) hrem
      refine ⟨ih1, ?_, ?_, ?_⟩
      · simp only [runCons]
        exact getLast?_cons_of _ _ _ ih2
      · intro x hx
        simp only [runCons, List.mem_cons] at hx
        rcases hx with hx | hx
        · subst hx
          exact ⟨by linarith, hc.le⟩
        · exact ih3 x hx
      · simp only [runCons]
        rw [List.chain'_cons]
        exact ⟨by linarith, ih4⟩
    · have hmin : min (tx + ppf) 0 = 0 := min_eq_right hc
      rw [hmin, resetLoop_stop_left]
      refine ⟨rfl, by simp [runCons], ?_, ?_⟩
      · intro x hx
        simp only [runCons, List.mem_cons] at hx
        rcases hx with hx | hx
        · subst hx
          exact ⟨by linarith, le_refl 0⟩
        · simp at hx
      · simp only [runCons]
        rw [List.chain'_cons]
        exact ⟨by linarith, by simp⟩

lemma resetLoop_right_done (w ppf : ℚ) (hw : 0 ≤ w) (hp : 0 < ppf) :
    ∀ (k : Nat) (tx : ℚ), 0 < tx → tx ≤ w → tx ≤ (k : ℚ) * ppf →
      (resetLoop w ppf SwipeDir.RIGHT (k + 1) tx).2 = ([], none) ∧
      (resetLoop w ppf SwipeDir.RIGHT (k + 1) tx).1.getLast? = some 0 ∧
      (∀ x ∈ (resetLoop w ppf SwipeDir.RIGHT (k + 1) tx).1, 0 ≤ x ∧ x ≤ w) ∧
      List.Chain' (fun a b => b ≤ a) (tx :: (resetLoop w ppf SwipeDir.RIGHT (k + 1) tx).1) := by
  intro k
  induction k with
  | zero =>
    intro tx h0 hle hk
    norm_num at hk
    linarith
  | succ k ih =>
    intro tx h0 hle hk
    have hstop : ¬((SwipeDir.RIGHT = SwipeDir.LEFT ∧ 0 ≤ tx) ∨
        (SwipeDir.RIGHT = SwipeDir.RIGHT ∧ tx ≤ 0)) := by
      rintro (⟨hc, -⟩ | ⟨-, hc⟩)
      · exact SwipeDir.noConfusion hc
      · linarith
    have h0' : 0 ≤ max (tx - ppf) 0 := le_max_right _ _
    have hle' : max (tx - ppf) 0 ≤ w := max_le (by linarith) hw
    have hclamp : (transformState w (resetStep ppf SwipeDir.RIGHT tx)).translateX
        = max (tx - ppf) 0 := by
      rw [transformState_translateX]
      show clampTranslateX w (max (tx - ppf) 0) = max (tx - ppf) 0
      exact clampTranslateX_of_mem w _ (by linarith) hle'
    rw [resetLoop_succ, if_neg hstop, hclamp]
    rcases lt_or_le 0 (tx - ppf) with hc | hc
    · have hmax : max (tx - ppf) 0 = tx - ppf := max_eq_left hc.le
      have hrem : tx - ppf ≤ (k : ℚ) * ppf := by
        have hmul : ((k : ℚ) + 1) * ppf = (k : ℚ) * ppf + ppf := by ring
        push_cast at hk
        linarith
      rw [hmax]
      obtain ⟨ih1, ih2, ih3, ih4⟩ := ih (tx - ppf) hc (by linarith) hrem
      refine ⟨ih1, ?_, ?_, ?_⟩
      · simp only [runCons]
        exact getLast?_cons_of _ _ _ ih2
      · intro x hx
        simp only [runCons, List.mem_cons] at hx
        rcases hx with hx | hx
        · subst hx
          exact ⟨hc.le, by linarith⟩
        · exact ih3 x hx
      · simp only [runCons]
        rw [List.chain'_cons]
        exact ⟨by linarith, ih4⟩
    · have hmax : max (tx - ppf) 0 = 0 := max_eq_right hc
      rw [hmax, resetLoop_stop_right]
      refine ⟨rfl, by simp [runCons], ?_, ?_⟩
      · intro x hx
        simp only [runCons, List.mem_cons] at hx
        rcases hx with hx | hx
        · subst hx
          exact ⟨le_refl 0, hw⟩
        · simp at hx
      · simp only [runCons]
        rw [List.chain'_cons]
        exact ⟨by linarith, by simp⟩

/-- Claim C4: every committing sequence steps the offset toward the signed
widget width (monotone in the recorded direction, each applied offset
clamped within the widget width), dispatches the recorded direction exactly
once, clears the stored offset, and the reset animation never dispatches
anything. -/
theorem swipe_commits_once (w t tx₀ : ℚ) (hw : 0 ≤ w) (ht : 0 < t)
    (hlo : -w ≤ tx₀) (hhi : tx₀ ≤ w) :
    (∃ fuel : Nat,
      (swipeSim w t tx₀ fuel).2 = ([swipeDirection tx₀], none) ∧
      (∀ x ∈ (swipeSim w t tx₀ fuel).1, -w ≤ x ∧ x ≤ w) ∧
      (tx₀ < 0 → List.Chain' (fun a b => b ≤ a) (tx₀ :: (swipeSim w t tx₀ fuel).1)) ∧
      (0 ≤ tx₀ → List.Chain' (fun a b => a ≤ b) (tx₀ :: (swipeSim w t tx₀ fuel).1))) ∧
    (∀ fuel : Nat, (resetSim w t tx₀ fuel).2.1 = []) := by
  constructor
  · by_cases hneg : tx₀ < 0
    · have hdir : swipeDirection tx₀ = SwipeDir.LEFT := by
        unfold swipeDirection
        rw [if_pos hneg]
      have hsim : ∀ fuel : Nat, swipeSim w t tx₀ fuel =
          swipeLoop w (abs ((-w - tx₀) / (t * (6 / 100)))) SwipeDir.LEFT fuel tx₀ := by
        intro fuel
        unfold swipeSim
        rw [if_pos hneg, hdir]
      by_cases hedge : w ≤ abs tx₀
      · refine ⟨0 + 1, ?_, ?_, ?_, ?_⟩
        · rw [hsim, hdir, swipeLoop_succ, if_pos hedge]
        · rw [hsim, swipeLoop_succ, if_pos hedge]
          intro x hx
          simp at hx
        · intro h
          rw [hsim, swipeLoop_succ, if_pos hedge]
          simp
        · intro h
          linarith
      · have habs : abs tx₀ < w := not_le.mp hedge
        have hgt : -w < tx₀ := (abs_lt.mp habs).1
        set ppf := abs ((-w - tx₀) / (t * (6 / 100))) with hppf_def
        have hppf : 0 < ppf := by
          rw [hppf_def]
          apply abs_pos.mpr
          apply div_ne_zero
          · exact ne_of_lt (by linarith)
          · positivity
        obtain ⟨k, hk⟩ := exists_nat_ge ((tx₀ + w) / ppf)
        have hk' : tx₀ + w ≤ (k : ℚ) * ppf := (div_le_iff hppf).mp hk
        obtain ⟨L1, L2, L3⟩ := swipeLoop_left_done w ppf hw hppf k tx₀ hneg.le hlo hk'
        refine ⟨k + 1, ?_, ?_, ?_, ?_⟩
        · rw [hsim, hdir]
          exact L1
        · rw [hsim]
          intro x hx
          obtain ⟨hx1, hx2⟩ := L2 x hx
          exact ⟨hx1, by linarith⟩
        · intro h
          rw [hsim]
          exact L3
        · intro h
          linarith
    · have hpos : 0 ≤ tx₀ := not_lt.mp hneg
      have hdir : swipeDirection tx₀ = SwipeDir.RIGHT := by
        unfold swipeDirection
        rw [if_neg hneg]
      have hsim : ∀ fuel : Nat, swipeSim w t tx₀ fuel =
          swipeLoop w (abs ((w - tx₀) / (t * (6 / 100)))) SwipeDir.RIGHT fuel tx₀ := by
        intro fuel
        unfold swipeSim
        rw [if_neg hneg, hdir]
      by_cases hedge : w ≤ abs tx₀
      · refine ⟨0 + 1, ?_, ?_, ?_, ?_⟩
        · rw [hsim, hdir, swipeLoop_succ, if_pos hedge]
        · rw [hsim, swipeLoop_succ, if_pos hedge]
          intro x hx
          simp at hx
        · intro h
          linarith
        · intro h
          rw [hsim, swipeLoop_succ, if_pos hedge]
          simp
      · have habs : abs tx₀ < w := not_le.mp hedge
        have hlt : tx₀ < w := (abs_lt.mp habs).2
        set ppf := abs ((w - tx₀) / (t * (6 / 100))) with hppf_def
        have hppf : 0 < ppf := by
          rw [hppf_def]
          apply abs_pos.mpr
          apply div_ne_zero
          · exact ne_of_gt (by linarith)
          · positivity
        obtain ⟨k, hk⟩ := exists_nat_ge ((w - tx₀) / ppf)
        have hk' : w - tx₀ ≤ (k : ℚ) * ppf := (div_le_iff hppf).mp hk
        obtain ⟨R1, R2, R3⟩ := swipeLoop_right_done w ppf hw hppf k tx₀ hpos hhi hk'
        refine ⟨k + 1, ?_, ?_, ?_, ?_⟩
        · rw [hsim, hdir]
          exact R1
        · rw [hsim]
          intro x hx
          obtain ⟨hx1, hx2⟩ := R2 x hx
          exact ⟨by linarith, hx2⟩
        · intro h
          linarith
        · intro h
          rw [hsim]
          exact R3
  · intro fuel
    unfold resetSim
    exact resetLoop_events _ _ _ fuel tx₀

/-- Witness for the committing sequence: the spec scenario with width 300,
animation time 200 and a stored offset of -150. -/
theorem swipe_commits_once_witness :
    ((0 : ℚ) ≤ 300 ∧ (0 : ℚ) < 200 ∧ -(300 : ℚ) ≤ -150 ∧ (-150 : ℚ) ≤ 300) ∧
    ∃ fuel : Nat, (swipeSim 300 200 (-150) fuel).2 = ([swipeDirection (-150)], none) :=
  ⟨by norm_num, by
    obtain ⟨⟨fuel, h1, -⟩, -⟩ :=
      swipe_commits_once 300 200 (-150) (by norm_num) (by norm_num) (by norm_num) (by norm_num)
    exact ⟨fuel, h1⟩⟩

/-- Claim C5: every resetting sequence steps the offset toward 0 (monotone,
direction-aware stop), the last applied offset is exactly 0 whenever the
sequence starts away from 0, the stored offset is cleared, and nothing is
dispatched. -/
theorem reset_clears_without_dispatch (w t tx₀ : ℚ) (hw : 0 ≤ w) (ht : 0 < t)
    (hlo : -w ≤ tx₀) (hhi : tx₀ ≤ w) :
    ∃ fuel : Nat,
      (resetSim w t tx₀ fuel).2 = ([], none) ∧
      (tx₀ ≠ 0 → (resetSim w t tx₀ fuel).1.getLast? = some 0) ∧
      (∀ x ∈ (resetSim w t tx₀ fuel).1, -w ≤ x ∧ x ≤ w) ∧
      (tx₀ < 0 → List.Chain' (fun a b => a ≤ b) (tx₀ :: (resetSim w t tx₀ fuel).1)) ∧
      (0 < tx₀ → List.Chain' (fun a b => b ≤ a) (tx₀ :: (resetSim w t tx₀ fuel).1)) := by
  rcases lt_trichotomy tx₀ 0 with hneg | hzero | hpos
  · have hdir : swipeDirection tx₀ = SwipeDir.LEFT := by
      unfold swipeDirection
      rw [if_pos hneg]
    have hsim : ∀ fuel : Nat, resetSim w t tx₀ fuel =
        resetLoop w (abs (tx₀ / (t * (6 / 100)))) SwipeDir.LEFT fuel tx₀ := by
      intro fuel
      unfold resetSim
      rw [hdir]
    set ppf := abs (tx₀ / (t * (6 / 100))) with hppf_def
    have hppf : 0 < ppf := by
      rw [hppf_def]
      apply abs_pos.mpr
      apply div_ne_zero
      · exact ne_of_lt hneg
      · positivity
    obtain ⟨k, hk⟩ := exists_nat_ge ((-tx₀) / ppf)
    have hk' : -tx₀ ≤ (k : ℚ) * ppf := (div_le_iff hppf).mp hk
    obtain ⟨R1, R2, R3, R4⟩ := resetLoop_left_done w ppf hw hppf k tx₀ hneg hlo hk'
    refine ⟨k + 1, ?_, ?_, ?_, ?_, ?_⟩
    · rw [hsim]
      exact R1
    · intro h
      rw [hsim]
      exact R2
    · rw [hsim]
      intro x hx
      obtain ⟨hx1, hx2⟩ := R3 x hx
      exact ⟨hx1, by linarith⟩
    · intro h
      rw [hsim]
      exact R4
    · intro h
      linarith
  · subst hzero
    have hdir : swipeDirection (0 : ℚ) = SwipeDir.RIGHT := by
      unfold swipeDirection
      rw [if_neg (lt_irrefl 0)]
    refine ⟨0 + 1, ?_, ?_, ?_, ?_, ?_⟩
    · unfold resetSim
      rw [hdir, resetLoop_stop_right]
    · intro h
      exact absurd rfl h
    · unfold resetSim
      rw [hdir, resetLoop_stop_right]
      intro x hx
      simp at hx
    · intro h
      exact absurd h (lt_irrefl 0)
    · intro h
      exact absurd h (lt_irrefl 0)
  · have hneg' : ¬tx₀ < 0 := by linarith
    have hdir : swipeDirection tx₀ = SwipeDir.RIGHT := by
      unfold swipeDirection
      rw [if_neg hneg']
    have hsim : ∀ fuel : Nat, resetSim w t tx₀ fuel =
        resetLoop w (abs (tx₀ / (t * (6 / 100)))) SwipeDir.RIGHT fuel tx₀ := by
      intro fuel
      unfold resetSim
      rw [hdir]
    set ppf := abs (tx₀ / (t * (6 / 100))) with hppf_def
    have hppf : 0 < ppf := by
      rw [hppf_def]
      apply abs_pos.mpr
      apply div_ne_zero
      · exact ne_of_gt hpos
      · positivity
    obtain ⟨k, hk⟩ := exists_nat_ge (tx₀ / ppf)
    have hk' : tx₀ ≤ (k : ℚ) * ppf := (div_le_iff hppf).mp hk
    obtain ⟨R1, R2, R3, R4⟩ := resetLoop_right_done w ppf hw hppf k tx₀ hpos hhi hk'
    refine ⟨k + 1, ?_, ?_, ?_, ?_, ?_⟩
    · rw [hsim]
      exact R1
    · intro h
      rw [hsim]
      exact R2
    · rw [hsim]
      intro x hx
      obtain ⟨hx1, hx2⟩ := R3 x hx
      exact ⟨by linarith, hx2⟩
    · intro h
      linarith
    · intro h
      rw [hsim]
      exact R4

/-- Witness for the resetting sequence: the spec scenario with width 300,
animation time 200 and a stored offset of -20. -/
theorem reset_clears_without_dispatch_witness :
    ((0 : ℚ) ≤ 300 ∧ (0 : ℚ) < 200 ∧ -(300 : ℚ) ≤ -20 ∧ (-20 : ℚ) ≤ 300) ∧
    ∃ fuel : Nat, (resetSim 300 200 (-20) fuel).2 = ([], none) :=
  ⟨by norm_num, by
    obtain ⟨fuel, h1, -⟩ :=
      reset_clears_without_dispatch 300 200 (-20) (by norm_num) (by norm_num) (by norm_num)
        (by norm_num)
    exact ⟨fuel, h1⟩⟩

/-- Claim C10: the direction of the touch-end animations and of the
dispatched action is determined solely by the sign of the stored offset
(LEFT exactly when it is negative, so 0 gives RIGHT); the touch-end event
coordinates can only choose between committing and resetting, so whatever
they are, the dispatched events are either none or exactly the direction of
the stored offset. -/
theorem direction_from_stored_offset (tx₀ : ℚ) :
    (swipeDirection tx₀ = SwipeDir.LEFT ↔ tx₀ < 0) ∧
    swipeDirection 0 = SwipeDir.RIGHT ∧
    (∀ (v w t diffX timeDiff : ℚ) (fuel : Nat),
      (touchEndRun v w t (some tx₀) diffX timeDiff fuel).2.1 = [] ∨
      (touchEndRun v w t (some tx₀) diffX timeDiff fuel).2.1 = [swipeDirection tx₀]) := by
  refine ⟨?_, ?_, ?_⟩
  · by_cases h : tx₀ < 0
    · simp [swipeDirection, h]
    · simp [swipeDirection, h]
  · simp [swipeDirection]
  · intro v w t diffX timeDiff fuel
    have hrun : touchEndRun v w t (some tx₀) diffX timeDiff fuel =
        if commitCondition v w diffX timeDiff then swipeSim w t tx₀ fuel
        else resetSim w t tx₀ fuel := rfl
    rw [hrun]
    by_cases hb : commitCondition v w diffX timeDiff = true
    · rw [if_pos hb]
      unfold swipeSim
      exact swipeLoop_events _ _ _ fuel tx₀
    · rw [if_neg hb]
      unfold resetSim
      exact Or.inl (resetLoop_events _ _ _ fuel tx₀)

/-- Component used to exercise an unconfigured right side: left action
configured, right action absent, default threshold 10, width 300 and
height 50, no transform in progress. -/
def cexComponent : Component :=
  { leftAction := some (ActionSpec.mk "DELETE" "Delete" none)
    rightAction := none
    threshold := 10
    velocity := 3 / 10
    animationTime := 200
    offsetWidth := 300
    offsetHeight := 50
    translateX := none }

/-- Counterexample to claim C7: with no right action configured, a purely
horizontal rightward touch-move of 50 px (past the threshold of 10) still
begins a transform: the stored offset becomes 50. -/
theorem move_toward_unconfigured_side_begins_transform :
    cexComponent.rightAction = none ∧ cexComponent.translateX = none ∧
    (componentTouchMove cexComponent 50 0).translateX = some 50 := by
  refine ⟨rfl, rfl, ?_⟩
  show onTouchMove 10 50 300 none 50 0 = some 50
  unfold onTouchMove
  rw [if_neg]
  · rw [transformState_translateX]
    unfold clampTranslateX
    rw [if_neg (by norm_num : ¬((50 : ℚ) < 0)), min_eq_left (by norm_num : (50 : ℚ) ≤ 300)]
  · rintro ⟨-, (⟨hy, -⟩ | hY | hX)⟩
    · exact hy rfl
    · rw [abs_zero] at hY
      norm_num at hY
    · rw [abs_of_nonneg (by norm_num : (0 : ℚ) ≤ 50)] at hX
      norm_num at hX

/-- Claim C7 amended: the touch-move gating never consults the configured
actions, so a move toward an unconfigured side begins a transform under
exactly the same conditions as any other move; what the missing ActionSpec
guarantees instead is that no placeholder element on that side is ever
assigned a transform and that no action is ever dispatched toward that
side. -/
theorem unconfigured_side_not_gated (c : Component) (a₁ a₂ : Option ActionSpec)
    (diffX diffY position : ℚ) :
    (componentTouchMove { c with leftAction := a₁, rightAction := a₂ } diffX diffY).translateX =
      (componentTouchMove c diffX diffY).translateX ∧
    (c.rightAction = none →
      (componentTransform c position).rightPlaceholderTransform = none ∧
      (componentTransform c position).rightPlaceholderContentTransform = none ∧
      dispatchAction c.leftAction c.rightAction SwipeDir.RIGHT = none) ∧
    (c.leftAction = none →
      (componentTransform c position).leftPlaceholderTransform = none ∧
      (componentTransform c position).leftPlaceholderContentTransform = none ∧
      dispatchAction c.leftAction c.rightAction SwipeDir.LEFT = none) := by
  refine ⟨rfl, ?_, ?_⟩
  · intro hr
    refine ⟨?_, ?_, ?_⟩
    · simp [componentTransform, transformApply, hr]
    · simp [componentTransform, transformApply, hr]
    · simp [dispatchAction, hr]
  · intro hl
    refine ⟨?_, ?_, ?_⟩
    · simp [componentTransform, transformApply, hl]
    · simp [componentTransform, transformApply, hl]
    · simp [dispatchAction, hl]

/-- Witness for the amended claim C7 at the concrete component with an
absent right action. -/
theorem unconfigured_side_not_gated_witness :
    cexComponent.rightAction = none ∧
    ((componentTransform cexComponent 50).rightPlaceholderTransform = none ∧
      (componentTransform cexComponent 50).rightPlaceholderContentTransform = none ∧
      dispatchAction cexComponent.leftAction cexComponent.rightAction SwipeDir.RIGHT = none) :=
  ⟨rfl, (unconfigured_side_not_gated cexComponent none none 0 0 50).2.1 rfl⟩

/-- Claim C8 evaluated on the code: for a 50 px offset with a configured
left action, the content transform string closes its parenthesis, but the
placeholder transform string produced by the source template is
"translateX(50px) scaleX(1", with the scaleX application never closed. -/
theorem placeholder_transform_string_unterminated :
    (transformApply true false 300 50).contentTransform = "translateX(50px)" ∧
    parenBalanced "translateX(50px)" = true ∧
    (transformApply true false 300 50).leftPlaceholderTransform =
      some "translateX(50px) scaleX(1" ∧
    parenBalanced "translateX(50px) scaleX(1" = false := by
  have h50 : clampTranslateX 300 50 = 50 := by
    unfold clampTranslateX
    rw [if_neg (by norm_num : ¬((50 : ℚ) < 0)), min_eq_left (by norm_num : (50 : ℚ) ≤ 300)]
  have htx : (transformState 300 50).translateX = 50 := by
    rw [transformState_translateX, h50]
  have hsc : (transformState 300 50).scaleX = 1 := by
    show max 1 (abs (clampTranslateX 300 50 / 100)) = 1
    rw [h50, abs_of_nonneg (by norm_num : (0 : ℚ) ≤ 50 / 100),
      max_eq_left (by norm_num : (50 : ℚ) / 100 ≤ 1)]
  refine ⟨?_, by decide, ?_, by decide⟩
  · show "translateX(" ++ toString (transformState 300 50).translateX ++ "px)" =
      "translateX(50px)"
    rw [htx]
    rfl
  · show some ("translateX(" ++ toString (transformState 300 50).translateX ++
        "px) scaleX(" ++ toString (transformState 300 50).scaleX) =
      some "translateX(50px) scaleX(1"
    rw [htx, hsc]
    rfl
